import Mathlib

/-!
Verification of the core snowfall-forecast pipeline of `src/streamlit_app.py`.

The pipeline is embedded shallowly:
* temperatures, precipitation amounts and derived quantities are rationals
  (the Python code computes with floats; all the constants and branch
  conditions involved are exact decimals, so the rational embedding follows
  the source expressions literally);
* timestamps are integers (an instant on the hourly grid);
* a per-model data frame is a list of rows, in row order;
* the one place where float-specific behaviour matters (NaN falling through
  every `<=` in `slr_from_temp`) is modelled separately with `Option ℚ`,
  `none` standing for NaN.
-/

/-- `feet_to_m` of the source: `ft * 0.3048`. -/
def feet_to_m (ft : ℚ) : ℚ := ft * 0.3048

/-- `mm_to_inches` of the source: `mm / 25.4`. -/
def mm_to_inches (mm : ℚ) : ℚ := mm / 25.4

/-- `slr_from_temp` of the source:
an if-chain on `<=` thresholds −12, −6, −2, 0 returning 22, 18, 14, 10, 7. -/
def slr_from_temp (tc : ℚ) : ℚ :=
  if tc ≤ -12 then 22.0
  else if tc ≤ -6 then 18.0
  else if tc ≤ -2 then 14.0
  else if tc ≤ 0 then 10.0
  else 7.0

/-- The lapse-rate constant of the source: `lapse = 0.0065` (K per meter). -/
def lapse : ℚ := 0.0065

/-- The elevation correction of the source, applied per model frame:
`temp_adj = -(target_elev_m - elev_fcst) * lapse` added to the raw
temperature (`df["t_C_adj"] = df["t_C"] + temp_adj`).  Arguments are the raw
temperature, the model's reporting elevation and the target elevation, both
in meters. -/
def adjust (raw elev_model elev_target : ℚ) : ℚ :=
  raw + (-(elev_target - elev_model) * lapse)

/-- One raw hourly row of a fetched frame: `time_local`, `t_C`, `qpf_mm`. -/
structure HourlySample where
  time_local : Int
  t_C : ℚ
  qpf_mm : ℚ
deriving DecidableEq, Repr

/-- One row of a per-model frame after the column assignments of the
forecast loop: `t_C_adj`, `qpf_in`, `slr`, `snow_in`. -/
structure AdjustedSample where
  time_local : Int
  t_C_adj : ℚ
  qpf_in : ℚ
  slr : ℚ
  snow_in : ℚ
deriving DecidableEq, Repr

/-- The series-building stage of the forecast loop (spec §4.4,
`SnowfallSeriesBuilder.build`): for each fetched row, in order, compute
`t_C_adj = t_C + temp_adj`, `qpf_in = mm_to_inches qpf_mm`,
`slr = slr_from_temp t_C_adj`, `snow_in = qpf_in * slr`. -/
def build (samples : List HourlySample) (elev_fcst elev_target_m : ℚ) :
    List AdjustedSample :=
  samples.map fun s =>
    let tadj := adjust s.t_C elev_fcst elev_target_m
    let q := mm_to_inches s.qpf_mm
    let r := slr_from_temp tadj
    { time_local := s.time_local, t_C_adj := tadj, qpf_in := q, slr := r,
      snow_in := q * r }

/-- One iteration of the per-model `try/except` in the forecast loop: a
failed fetch (`except` branch, `st.warning`) drops the model (`none`); a
successful fetch builds the model's frame from whatever rows the fetch
returned, with no emptiness check. -/
def processModel (fetched : Except Unit (List HourlySample × ℚ))
    (elev_target_m : ℚ) : Option (List AdjustedSample) :=
  match fetched with
  | Except.error _ => none
  | Except.ok (samples, elev) => some (build samples elev elev_target_m)

/-- The window filter of `fetch_forecast`:
`df[(df["time_local"] >= start_dt) & (df["time_local"] <= end_dt)]`.
It is the only transformation the fetched rows undergo before the forecast
loop: no sorting, no deduplication. -/
def windowFilter (start_dt end_dt : Int) (rows : List HourlySample) :
    List HourlySample :=
  rows.filter fun r => decide (start_dt ≤ r.time_local) &&
    decide (r.time_local ≤ end_dt)

/-- Python float semantics for `slr_from_temp`: a float is `Option ℚ` with
`none` for NaN, and `x <= c` is `False` whenever `x` is NaN. -/
def floatLe (x : Option ℚ) (c : ℚ) : Bool :=
  match x with
  | none => false
  | some q => decide (q ≤ c)

/-- `slr_from_temp` read over the float model: the same if-chain, each
comparison evaluated by `floatLe`. -/
def slr_from_temp_float (tc : Option ℚ) : ℚ :=
  if floatLe tc (-12) then 22.0
  else if floatLe tc (-6) then 18.0
  else if floatLe tc (-2) then 14.0
  else if floatLe tc 0 then 10.0
  else 7.0

/-- The `(time_local, snow_in)` rows of one model's frame, as they enter the
concatenation feeding `pivot_table`. -/
abbrev Series := List (Int × ℚ)

/-- The list of per-model frames (`model_frames` of the source), each tagged
with its model identifier.  Model identifiers are abstracted to `Nat`; the
source tags each frame with a distinct name from `DEFAULT_MODELS`. -/
abbrev Fam := List (Nat × Series)

/-- Mean of a list of values, as `Series.mean` computes it
(`sum / count`). -/
def listMean (l : List ℚ) : ℚ := l.sum / l.length

/-- The `snow_in` values a model's frame holds at timestamp `t` (the group
of rows `pivot_table` forms for the index/column pair `(t, model)`). -/
def valsAt (s : Series) (t : Int) : List ℚ :=
  (s.filter fun p => p.1 == t).map Prod.snd

/-- One cell of `pivot_table(index=time_local, columns=model,
values=snow_in)`: NaN (`none`) when the model has no row at `t`, otherwise
the mean of the group (the default `aggfunc` of `pivot_table`). -/
def cell (s : Series) (t : Int) : Option ℚ :=
  if valsAt s t = [] then none else some (listMean (valsAt s t))

/-- The index of the pivot: the distinct timestamps occurring in any frame,
sorted ascending (`pivot_table` sorts the index). -/
def timesOf (fam : Fam) : List Int :=
  ((fam.flatMap fun ms => ms.2.map Prod.fst).dedup).insertionSort (· ≤ ·)

/-- The non-NaN cells of the pivot row at `t`, the values over which
`pivot.mean(axis=1)` and `pivot.std(axis=1)` compute (both skip NaN). -/
def rowVals (fam : Fam) (t : Int) : List ℚ :=
  fam.filterMap fun ms => cell ms.2 t

/-- The square of `pivot.std(axis=1).fillna(0.0)` on a row with values `l`:
pandas `std` uses `ddof=1` (Bessel), yields NaN on fewer than two values,
and the subsequent `fillna` turns that NaN into `0.0`.  The square is
carried so as to stay inside `ℚ`; the code's `snow_std` is its nonnegative
square root, so `snow_std = 0` exactly when this value is `0`. -/
def sampleVar (l : List ℚ) : ℚ :=
  if 2 ≤ l.length then
    ((l.map fun x => (x - listMean l) ^ 2).sum) / ((l.length : ℚ) - 1)
  else 0

/-- One row of the aggregated output frame `out`:
`snow_mean = pivot.mean(axis=1)` and the square of
`snow_std = pivot.std(axis=1).fillna(0.0)`. -/
structure EnsemblePoint where
  time_local : Int
  snow_mean : ℚ
  snow_var : ℚ
deriving DecidableEq, Repr

/-- The ensemble-aggregation stage (spec §4.5): pivot the concatenated
frames by `(time_local, model)` and take the row-wise mean and (squared)
standard deviation. -/
def aggregate (fam : Fam) : List EnsemblePoint :=
  (timesOf fam).map fun t =>
    { time_local := t, snow_mean := listMean (rowVals fam t),
      snow_var := sampleVar (rowVals fam t) }

/-- The guard and aggregation as the script runs them: `if not
model_frames: st.error(...); st.stop()` (modelled as `none`), otherwise the
aggregated frame. -/
def ensembleStage (model_frames : Fam) : Option (List EnsemblePoint) :=
  if model_frames = [] then none else some (aggregate model_frames)

/-- From the spec's words (§4.5): "for each distinct timestamp, collect the
`snow_in` values from all models present" — one value per model that
reports at `t`. -/
def reportedAt (fam : Fam) (t : Int) : List ℚ :=
  fam.filterMap fun ms => (ms.2.find? fun p => p.1 == t).map Prod.snd

/-- The daily-rollup stage (spec §4.6): group the hourly rows by local
calendar date and sum per group, keys ascending (pandas `groupby` sorts its
keys).  The conversion of a local timestamp to its calendar date
(`out_daily.index.date`) is abstracted as the function `day`. -/
def daily_totals (day : Int → Int) (pts : List (Int × ℚ)) : List (Int × ℚ) :=
  (((pts.map fun p => day p.1).dedup).insertionSort (· ≤ ·)).map
    fun d => (d, ((pts.filter fun p => day p.1 == d).map Prod.snd).sum)

/-- C1: `slr_from_temp` is exactly the step table of the spec, with
boundaries inclusive on the lower comparison: 22 for t ≤ −12, 18 on
(−12, −6], 14 on (−6, −2], 10 on (−2, 0], 7 for t > 0; the four boundary
evaluations of the spec hold, and the function is non-increasing. -/
theorem slr_step_table :
    (∀ t : ℚ, t ≤ -12 → slr_from_temp t = 22) ∧
    (∀ t : ℚ, -12 < t → t ≤ -6 → slr_from_temp t = 18) ∧
    (∀ t : ℚ, -6 < t → t ≤ -2 → slr_from_temp t = 14) ∧
    (∀ t : ℚ, -2 < t → t ≤ 0 → slr_from_temp t = 10) ∧
    (∀ t : ℚ, 0 < t → slr_from_temp t = 7) ∧
    slr_from_temp (-12) = 22 ∧ slr_from_temp (-11.999) = 18 ∧
    slr_from_temp 0 = 10 ∧ slr_from_temp 0.001 = 7 ∧
    Antitone slr_from_temp := by
  refine ⟨?_, ?_, ?_, ?_, ?_, ?_, ?_, ?_, ?_, ?_⟩ <;>
    first
      | (intro t h
         simp only [slr_from_temp]
         split_ifs <;> first | rfl | linarith)
      | (intro t h h'
         simp only [slr_from_temp]
         split_ifs <;> first | rfl | linarith)
      | (simp only [slr_from_temp]; norm_num)
      | (intro a b hab
         simp only [slr_from_temp]
         split_ifs <;> first | rfl | norm_num | linarith)

/-- Witness for C1: the interval clauses applied at concrete temperatures. -/
theorem slr_step_table_witness :
    (-13 : ℚ) ≤ -12 ∧ (-12 : ℚ) < -7 ∧ (-7 : ℚ) ≤ -6 ∧
      slr_from_temp (-13) = 22 ∧ slr_from_temp (-7) = 18 :=
  ⟨by norm_num, by norm_num, by norm_num,
    slr_step_table.1 (-13) (by norm_num),
    slr_step_table.2.1 (-7) (by norm_num) (by norm_num)⟩

/-- C6: the elevation adjustment is
`raw + (-(elev_target - elev_model) * 0.0065)`; it is the identity when the
target equals the model elevation, and each meter of elevation gained
lowers the adjusted temperature by 0.0065 °C.  It is total: there is no
error condition for negative or zero elevation differences. -/
theorem adjust_lapse_formula :
    (∀ t em et : ℚ, adjust t em et = t + (-(et - em) * (13/2000))) ∧
    (∀ t e : ℚ, adjust t e e = t) ∧
    (∀ t em et d : ℚ, adjust t em (et + d) = adjust t em et - d * (13/2000)) := by
  refine ⟨fun t em et => ?_, fun t e => ?_, fun t em et d => ?_⟩ <;>
    (simp only [adjust, lapse]; norm_num) <;> ring

/-- C9: the SLR estimator is total over the float model and sends NaN to
7.0 (NaN fails every `<=`, so the if-chain falls through to the final
branch); on numeric inputs the float reading agrees with `slr_from_temp`.
A missing adjusted temperature therefore silently maps to the warmest
ratio instead of raising. -/
theorem slr_total_nan_falls_through :
    slr_from_temp_float none = 7 ∧
    (∀ q : ℚ, slr_from_temp_float (some q) = slr_from_temp q) := by
  constructor
  · norm_num [slr_from_temp_float, floatLe]
  · intro q
    simp only [slr_from_temp_float, slr_from_temp, floatLe]
    split_ifs <;> simp_all

/-- C3 counterexample: run on a successful fetch that returned no rows, the
per-model stage does not fail — it returns an (empty) output series, so the
empty input is not routed through the failure path the claim describes. -/
theorem build_empty_returns_series :
    processModel (Except.ok ([], 0)) 0 = some [] ∧
    some ([] : List AdjustedSample) ≠ none := by
  exact ⟨rfl, by simp⟩

/-- C3 amended: an empty sample sequence makes `build` return an empty
series rather than fail; only a failed fetch (the `except` branch) drops a
model; and a model whose series is empty contributes nothing to the
ensemble, which is how such a model is effectively excluded. -/
theorem empty_model_contributes_nothing :
    (∀ e t : ℚ, processModel (Except.ok ([], e)) t = some (build [] e t) ∧
      build [] e t = []) ∧
    (∀ t : ℚ, processModel (Except.error ()) t = none) ∧
    (∀ (m : Nat) (fam : Fam), aggregate ((m, []) :: fam) = aggregate fam) := by
  refine ⟨fun e t => ⟨rfl, rfl⟩, fun t => rfl, fun m fam => ?_⟩
  simp [aggregate, timesOf, rowVals, cell, valsAt]

/-- C4 counterexample: a present model frame with an empty series does not
trigger the empty-ensemble stop; the stage returns an (empty) aggregate
instead of the error the claim requires for `aggregate({"m": []})`. -/
theorem empty_series_model_not_error :
    ensembleStage [(0, [])] = some [] ∧ ensembleStage [(0, [])] ≠ none := by
  constructor
  · rfl
  · simp [ensembleStage]

/-- C4 amended: the stage errors exactly when the list of model frames is
empty (every fetch failed); a frame with an empty series keeps the stage on
the success path, which then yields an empty aggregate output. -/
theorem ensembleStage_none_iff_no_frames :
    (∀ fam : Fam, ensembleStage fam = none ↔ fam = []) ∧
    ensembleStage [] = none ∧
    (∀ m : Nat, ensembleStage [(m, [])] = some []) := by
  refine ⟨fun fam => ?_, rfl, fun m => ?_⟩
  · by_cases h : fam = [] <;> simp [ensembleStage, h]
  · simp [ensembleStage, aggregate, timesOf]

/-- Witness for C4 amended: the equivalence applied to the empty frame
list. -/
theorem ensembleStage_none_iff_no_frames_witness :
    ensembleStage [] = none :=
  (ensembleStage_none_iff_no_frames.1 []).mpr rfl

/-- C7 counterexample: `fetch_forecast` neither deduplicates nor sorts — the
window filter passes duplicate timestamps through unchanged (so the
downstream sequence is not strictly increasing) and leaves out-of-order
rows out of order. -/
theorem fetch_no_dedup_no_sort :
    windowFilter 0 10 [⟨1, 2, 3⟩, ⟨1, 4, 5⟩] = [⟨1, 2, 3⟩, ⟨1, 4, 5⟩] ∧
    ¬ ((windowFilter 0 10 [⟨1, 2, 3⟩, ⟨1, 4, 5⟩]).map
        HourlySample.time_local).Pairwise (· < ·) ∧
    windowFilter 0 10 [⟨2, 6, 7⟩, ⟨1, 8, 9⟩] = [⟨2, 6, 7⟩, ⟨1, 8, 9⟩] := by
  refine ⟨?_, ?_, ?_⟩ <;> decide

/-- C7 amended: the per-model sequence entering the pipeline is the
provider's sequence filtered to the requested window, order and
multiplicity preserved (a sublist); it has strictly increasing timestamps
exactly when the provider's rows already do — the filter preserves that
property but establishes nothing itself. -/
theorem windowFilter_preserves_strictly_increasing (s e : Int)
    (rows : List HourlySample)
    (h : (rows.map HourlySample.time_local).Pairwise (· < ·)) :
    (windowFilter s e rows).Sublist rows ∧
    ((windowFilter s e rows).map HourlySample.time_local).Pairwise (· < ·) := by
  have hsub : (windowFilter s e rows).Sublist rows := List.filter_sublist rows
  exact ⟨hsub, h.sublist (hsub.map HourlySample.time_local)⟩

/-- Witness for C7 amended: a strictly increasing two-row input stays
strictly increasing after the window filter. -/
theorem windowFilter_preserves_strictly_increasing_witness :
    (([⟨1, 2, 3⟩, ⟨2, 4, 5⟩] : List HourlySample).map
      HourlySample.time_local).Pairwise (· < ·) ∧
    ((windowFilter 0 10 [⟨1, 2, 3⟩, ⟨2, 4, 5⟩]).Sublist
      [⟨1, 2, 3⟩, ⟨2, 4, 5⟩] ∧
     ((windowFilter 0 10 [⟨1, 2, 3⟩, ⟨2, 4, 5⟩]).map
       HourlySample.time_local).Pairwise (· < ·)) :=
  ⟨by decide, windowFilter_preserves_strictly_increasing 0 10
    [⟨1, 2, 3⟩, ⟨2, 4, 5⟩] (by decide)⟩

/-- C8: every ratio `slr_from_temp` can return is at least 7 (so strictly
positive), and every row `build` produces from a sample with nonnegative
`qpf_mm` has nonnegative `snow_in = qpf_in * slr`. -/
theorem snow_in_nonneg :
    (∀ t : ℚ, 7 ≤ slr_from_temp t) ∧
    (∀ (samples : List HourlySample) (e tgt : ℚ),
      (∀ s ∈ samples, 0 ≤ s.qpf_mm) →
      ∀ a ∈ build samples e tgt, 0 ≤ a.snow_in) := by
  have hslr : ∀ t : ℚ, 7 ≤ slr_from_temp t := by
    intro t
    simp only [slr_from_temp]
    split_ifs <;> norm_num
  refine ⟨hslr, fun samples e tgt hq a ha => ?_⟩
  simp only [build, List.mem_map] at ha
  obtain ⟨s, hs, rfl⟩ := ha
  show 0 ≤ mm_to_inches s.qpf_mm * slr_from_temp (adjust s.t_C e tgt)
  have h1 : 0 ≤ mm_to_inches s.qpf_mm := by
    have := hq s hs
    simp only [mm_to_inches]
    positivity
  exact mul_nonneg h1 (le_trans (by norm_num) (hslr _))

/-- Witness for C8: a single cold, wet sample at matching elevations. -/
theorem snow_in_nonneg_witness :
    (∀ s ∈ [({ time_local := 0, t_C := -15, qpf_mm := 10 } : HourlySample)],
      0 ≤ s.qpf_mm) ∧
    (∀ a ∈ build [{ time_local := 0, t_C := -15, qpf_mm := 10 }] 100 100,
      0 ≤ a.snow_in) :=
  ⟨by decide, snow_in_nonneg.2
    [{ time_local := 0, t_C := -15, qpf_mm := 10 }] 100 100 (by decide)⟩

/-- Indicator sum: a key absent from the index list contributes nothing. -/
theorem sum_map_ite_eq_zero {x : Int} {c : ℚ} {ds : List Int} (hx : x ∉ ds) :
    (ds.map fun d => if x = d then c else 0).sum = 0 := by
  induction ds with
  | nil => simp
  | cons d ds ih =>
    simp only [List.map_cons, List.sum_cons]
    rw [if_neg (by rintro rfl; exact hx (List.mem_cons_self _ _)),
      ih fun h => hx (List.mem_cons_of_mem _ h)]
    simp

/-- Indicator sum over a duplicate-free index list: a present key
contributes exactly once. -/
theorem sum_map_ite_single {x : Int} {c : ℚ} {ds : List Int}
    (hnd : ds.Nodup) (hx : x ∈ ds) :
    (ds.map fun d => if x = d then c else 0).sum = c := by
  induction ds with
  | nil => cases hx
  | cons d ds ih =>
    obtain ⟨hd, hnd'⟩ := List.nodup_cons.mp hnd
    rcases List.mem_cons.mp hx with rfl | hmem
    · simp only [List.map_cons, List.sum_cons, if_pos rfl]
      rw [sum_map_ite_eq_zero hd]
      simp
    · have hne : x ≠ d := by rintro rfl; exact hd hmem
      simp only [List.map_cons, List.sum_cons, if_neg hne]
      rw [ih hnd' hmem]
      simp

/-- Grouping rows by any key function and summing each group preserves the
total, provided the group keys are duplicate-free and cover every row. -/
theorem sum_filter_partition (day : Int → Int) (pts : List (Int × ℚ))
    (ds : List Int) (hnd : ds.Nodup) (hcov : ∀ p ∈ pts, day p.1 ∈ ds) :
    (ds.map fun d =>
      ((pts.filter fun p => day p.1 == d).map Prod.snd).sum).sum
        = (pts.map Prod.snd).sum := by
  induction pts with
  | nil => simp
  | cons p pts ih =>
    have hcov' : ∀ q ∈ pts, day q.1 ∈ ds :=
      fun q hq => hcov q (List.mem_cons_of_mem _ hq)
    have hsplit : ∀ d : Int,
        (((p :: pts).filter fun q => day q.1 == d).map Prod.snd).sum
          = (if day p.1 = d then p.2 else 0)
            + ((pts.filter fun q => day q.1 == d).map Prod.snd).sum := by
      intro d
      by_cases h : day p.1 = d
      · simp [List.filter_cons, h]
      · simp [List.filter_cons, h]
    simp only [hsplit, List.sum_map_add]
    rw [sum_map_ite_single hnd (hcov p (List.mem_cons_self _ _)), ih hcov']
    simp

/-- C5: the daily rollup groups the hourly rows by their local calendar
date (the `day` function abstracts `index.date` on the already-localized
timestamps) and sums per group, so the daily totals sum to exactly the sum
of the hourly inputs — partial days included, with no minimum hour count —
and the empty input yields an empty output, not an error. -/
theorem daily_totals_mass_balance (day : Int → Int) (pts : List (Int × ℚ)) :
    ((daily_totals day pts).map Prod.snd).sum = (pts.map Prod.snd).sum ∧
    daily_totals day [] = [] := by
  constructor
  · unfold daily_totals
    rw [List.map_map]
    have hproj : (Prod.snd ∘ fun d =>
        (d, ((pts.filter fun p => day p.1 == d).map Prod.snd).sum))
          = fun d => ((pts.filter fun p => day p.1 == d).map Prod.snd).sum :=
      rfl
    rw [hproj]
    apply sum_filter_partition
    · exact ((List.perm_insertionSort _ _).nodup_iff).mpr (List.nodup_dedup _)
    · intro p hp
      exact ((List.perm_insertionSort _ _).mem_iff).mpr
        (List.mem_dedup.mpr (List.mem_map_of_mem _ hp))
  · rfl

/-- A timestamp absent from a frame's rows yields no group values. -/
theorem valsAt_eq_nil_of_not_mem {s : Series} {t : Int}
    (h : t ∉ s.map Prod.fst) : valsAt s t = [] := by
  unfold valsAt
  rw [List.filter_eq_nil_iff.mpr ?_]
  · rfl
  · intro p hp
    simp only [beq_iff_eq]
    rintro rfl
    exact h (List.mem_map_of_mem _ hp)

/-- Mean of a one-element group is the element. -/
theorem listMean_singleton (x : ℚ) : listMean [x] = x := by
  simp [listMean]

/-- On a frame with duplicate-free timestamps, the pivot cell is the
frame's unique value at that timestamp (pandas `find`-style lookup). -/
theorem cell_eq_find {s : Series} (t : Int) (h : (s.map Prod.fst).Nodup) :
    cell s t = (s.find? fun p => p.1 == t).map Prod.snd := by
  induction s with
  | nil => rfl
  | cons p s ih =>
    simp only [List.map_cons, List.nodup_cons] at h
    by_cases hpt : p.1 = t
    · rw [List.find?_cons_of_pos _ (by simp [hpt])]
      have hnil : valsAt s t = [] := valsAt_eq_nil_of_not_mem (hpt ▸ h.1)
      have hvals : valsAt (p :: s) t = [p.2] := by
        simp [valsAt, List.filter_cons, hpt, valsAt] at hnil ⊢
        exact hnil
      simp [cell, hvals, listMean_singleton]
    · rw [List.find?_cons_of_neg _ (by simp [hpt])]
      have hvals : valsAt (p :: s) t = valsAt s t := by
        simp [valsAt, List.filter_cons, hpt]
      rw [show cell (p :: s) t = cell s t from by simp [cell, hvals], ih h.2]

/-- When every frame has duplicate-free timestamps, the non-NaN pivot row
at `t` is exactly the list of values the models present at `t` report. -/
theorem rowVals_eq_reportedAt {fam : Fam} (t : Int)
    (hkeys : ∀ ms ∈ fam, (ms.2.map Prod.fst).Nodup) :
    rowVals fam t = reportedAt fam t := by
  unfold rowVals reportedAt
  exact List.filterMap_congr fun ms hms => cell_eq_find t (hkeys ms hms)

/-- The pivot index is strictly increasing: sorted and duplicate-free. -/
theorem timesOf_sorted (fam : Fam) : List.Sorted (· < ·) (timesOf fam) := by
  have hs : List.Sorted (· ≤ ·) (timesOf fam) := List.sorted_insertionSort _ _
  have hn : (timesOf fam).Nodup :=
    ((List.perm_insertionSort _ _).nodup_iff).mpr (List.nodup_dedup _)
  exact (hs.and hn).imp fun hab => lt_of_le_of_ne hab.1 hab.2

/-- The pivot index is the union of the frames' timestamps. -/
theorem mem_timesOf {fam : Fam} {t : Int} :
    t ∈ timesOf fam ↔ ∃ ms ∈ fam, t ∈ ms.2.map Prod.fst := by
  unfold timesOf
  rw [(List.perm_insertionSort _ _).mem_iff, List.mem_dedup, List.mem_flatMap]

/-- A timestamp in the union has at least one reporting model. -/
theorem reportedAt_ne_nil {fam : Fam} {t : Int}
    (h : ∃ ms ∈ fam, t ∈ ms.2.map Prod.fst) : reportedAt fam t ≠ [] := by
  obtain ⟨ms, hms, ht⟩ := h
  obtain ⟨p, hp, rfl⟩ := List.mem_map.mp ht
  have hsome : (ms.2.find? fun q => q.1 == p.1).isSome :=
    List.find?_isSome.mpr ⟨p, hp, by simp⟩
  obtain ⟨q, hq⟩ := Option.isSome_iff_exists.mp hsome
  intro hnil
  have hmem : q.2 ∈ reportedAt fam p.1 :=
    List.mem_filterMap.mpr ⟨ms, hms, by rw [hq]; rfl⟩
  rw [hnil] at hmem
  cases hmem

/-- C2: for a non-empty family of per-model series, each with
duplicate-free timestamps (the spec's §3 invariant) and carrying distinct
model names, the aggregation outputs one point per distinct timestamp of
the union of the models' timestamps, in strictly ascending order; at each
output point the models that report that timestamp are non-empty,
`snow_mean` is the arithmetic mean of exactly their values, and the
squared deviation `snow_var` is the Bessel-corrected sample variance when
at least two models report and exactly `0` when exactly one reports. -/
theorem aggregate_matches_spec (fam : Fam) (hne : fam ≠ [])
    (hnames : (fam.map Prod.fst).Nodup)
    (hkeys : ∀ ms ∈ fam, (ms.2.map Prod.fst).Nodup) :
    List.Sorted (· < ·) ((aggregate fam).map EnsemblePoint.time_local) ∧
    (∀ t : Int, t ∈ (aggregate fam).map EnsemblePoint.time_local ↔
      ∃ ms ∈ fam, t ∈ ms.2.map Prod.fst) ∧
    (∀ p ∈ aggregate fam,
      reportedAt fam p.time_local ≠ [] ∧
      p.snow_mean = (reportedAt fam p.time_local).sum /
        (reportedAt fam p.time_local).length ∧
      (2 ≤ (reportedAt fam p.time_local).length →
        p.snow_var = ((reportedAt fam p.time_local).map fun x =>
          (x - listMean (reportedAt fam p.time_local)) ^ 2).sum /
          (((reportedAt fam p.time_local).length : ℚ) - 1)) ∧
      ((reportedAt fam p.time_local).length = 1 → p.snow_var = 0)) := by
  have hmapid : (aggregate fam).map EnsemblePoint.time_local = timesOf fam := by
    unfold aggregate
    rw [List.map_map]
    exact (List.map_congr_left fun t _ => rfl).trans (List.map_id _)
  refine ⟨?_, ?_, ?_⟩
  · rw [hmapid]; exact timesOf_sorted fam
  · intro t; rw [hmapid]; exact mem_timesOf
  · intro p hp
    obtain ⟨t, ht, rfl⟩ := List.mem_map.mp hp
    have hrv : rowVals fam t = reportedAt fam t := rowVals_eq_reportedAt t hkeys
    refine ⟨reportedAt_ne_nil (mem_timesOf.mp ht), ?_, ?_, ?_⟩
    · show listMean (rowVals fam t) = _
      rw [hrv]; rfl
    · intro h2
      show sampleVar (rowVals fam t) = _
      rw [hrv, sampleVar, if_pos h2]
    · intro h1
      have h1' : (reportedAt fam t).length = 1 := h1
      show sampleVar (rowVals fam t) = 0
      rw [hrv, sampleVar, if_neg (by omega)]

/-- Witness for C2: two models on overlapping hourly grids. -/
theorem aggregate_matches_spec_witness :
    (([(0, [(0, 1), (1, 2)]), (1, [(0, 3)])] : Fam) ≠ []) ∧
    ((([(0, [(0, 1), (1, 2)]), (1, [(0, 3)])] : Fam).map Prod.fst).Nodup) ∧
    (∀ ms ∈ ([(0, [(0, 1), (1, 2)]), (1, [(0, 3)])] : Fam),
      (ms.2.map Prod.fst).Nodup) ∧
    List.Sorted (· < ·)
      ((aggregate [(0, [(0, 1), (1, 2)]), (1, [(0, 3)])]).map
        EnsemblePoint.time_local) :=
  ⟨by decide, by decide, by decide,
    (aggregate_matches_spec [(0, [(0, 1), (1, 2)]), (1, [(0, 3)])]
      (by decide) (by decide) (by decide)).1⟩

/-- A nonempty constant block unions like its single element. -/
theorem union_const_block {t : Int} {Z : List Int} :
    ∀ vs : List ℚ, vs ≠ [] → ((vs.map fun _ => t) ∪ Z) = [t] ∪ Z := by
  intro vs
  induction vs with
  | nil => intro h; cases h rfl
  | cons v vs ih =>
    intro _
    by_cases hvs : vs = []
    · subst hvs; rfl
    · show insert t ((vs.map fun _ => t) ∪ Z) = [t] ∪ Z
      rw [ih hvs]
      show insert t (insert t ([] ∪ Z)) = insert t ([] ∪ Z)
      exact List.insert_of_mem (List.mem_insert_self _ _)

/-- Deduplicating after a common prefix only depends on the suffix's
deduplication. -/
theorem dedup_append_congr (A : List Int) {B C : List Int}
    (h : B.dedup = C.dedup) : (A ++ B).dedup = (A ++ C).dedup := by
  rw [List.dedup_append, List.dedup_append, h]

/-- Deduplication collapses a leading nonempty block of one timestamp to a
single occurrence. -/
theorem dedup_block_head {t : Int} (vs : List ℚ) (hvs : vs ≠ [])
    (Y : List Int) : ((vs.map fun _ => t) ++ Y).dedup = (t :: Y).dedup := by
  rw [List.dedup_append, show (t :: Y) = [t] ++ Y from rfl, List.dedup_append,
    union_const_block vs hvs]

/-- Group values distribute over appended frames. -/
theorem valsAt_append (s₁ s₂ : Series) (t : Int) :
    valsAt (s₁ ++ s₂) t = valsAt s₁ t ++ valsAt s₂ t := by
  simp [valsAt, List.filter_append]

/-- The group of a block of rows all carrying timestamp `t` is the list of
their values. -/
theorem valsAt_block (t : Int) (vs : List ℚ) :
    valsAt (vs.map fun v => (t, v)) t = vs := by
  unfold valsAt
  rw [List.filter_eq_self.mpr ?_]
  · rw [List.map_map]
    exact (List.map_congr_left fun v _ => rfl).trans (List.map_id _)
  · intro p hp
    obtain ⟨v, _, rfl⟩ := List.mem_map.mp hp
    simp

/-- A block of rows at timestamp `t` contributes nothing at `t' ≠ t`. -/
theorem valsAt_block_ne {t t' : Int} (h : t' ≠ t) (vs : List ℚ) :
    valsAt (vs.map fun v => (t, v)) t' = [] := by
  apply valsAt_eq_nil_of_not_mem
  intro hmem
  rw [List.map_map] at hmem
  obtain ⟨v, _, hv⟩ := List.mem_map.mp hmem
  exact h (by simpa using hv.symm)

/-- C10: two or more samples of one model at the same timestamp do not make
the aggregation fail and are not double-counted: the default mean
aggregation of `pivot_table` collapses them to their single average before
the cross-model mean and standard deviation, so the aggregate equals the
one computed from the frame carrying that single averaged row. -/
theorem aggregate_averages_duplicate_timestamps
    (pre post : Fam) (m : Nat) (t : Int) (vs : List ℚ) (rest : Series)
    (hvs : vs ≠ []) (hrest : ∀ p ∈ rest, p.1 ≠ t) :
    aggregate (pre ++ (m, (vs.map fun v => (t, v)) ++ rest) :: post) =
      aggregate (pre ++ (m, (t, listMean vs) :: rest) :: post) := by
  have hrestt : t ∉ rest.map Prod.fst := by
    intro hmem
    obtain ⟨p, hp, hpt⟩ := List.mem_map.mp hmem
    exact hrest p hp hpt
  have hvrest : valsAt rest t = [] := valsAt_eq_nil_of_not_mem hrestt
  have hcell : ∀ t' : Int,
      cell ((vs.map fun v => (t, v)) ++ rest) t'
        = cell ((t, listMean vs) :: rest) t' := by
    intro t'
    by_cases ht' : t' = t
    · subst ht'
      have h1 : valsAt ((vs.map fun v => (t', v)) ++ rest) t' = vs := by
        rw [valsAt_append, valsAt_block, hvrest, List.append_nil]
      have h2 : valsAt ((t', listMean vs) :: rest) t' = [listMean vs] := by
        have hstep : valsAt ((t', listMean vs) :: rest) t'
            = listMean vs :: valsAt rest t' := by
          simp [valsAt, List.filter_cons]
        rw [hstep, hvrest]
      simp only [cell, h1, h2]
      rw [if_neg hvs, if_neg (List.cons_ne_nil _ _), listMean_singleton]
    · have h1 : valsAt ((vs.map fun v => (t, v)) ++ rest) t'
          = valsAt rest t' := by
        rw [valsAt_append, valsAt_block_ne ht', List.nil_append]
      have h2 : valsAt ((t, listMean vs) :: rest) t' = valsAt rest t' := by
        simp [valsAt, List.filter_cons, Ne.symm ht']
      simp only [cell, h1, h2]
  have hkeysShape : ∀ s : Series,
      ((pre ++ (m, s) :: post).flatMap fun ms => ms.2.map Prod.fst)
        = (pre.flatMap fun ms => ms.2.map Prod.fst)
          ++ (s.map Prod.fst ++ (post.flatMap fun ms => ms.2.map Prod.fst)) := by
    intro s
    rw [List.flatMap_append, List.flatMap_cons]
  have hk1 : ((vs.map fun v => (t, v)) ++ rest).map Prod.fst
      = (vs.map fun _ => t) ++ rest.map Prod.fst := by
    rw [List.map_append, List.map_map]
    congr 1
  have hk2 : (((t, listMean vs) :: rest) : Series).map Prod.fst
      = t :: rest.map Prod.fst := by
    simp
  have hinner : ((((vs.map fun v => (t, v)) ++ rest).map Prod.fst)
      ++ (post.flatMap fun ms => ms.2.map Prod.fst)).dedup
      = (((((t, listMean vs) :: rest) : Series).map Prod.fst)
      ++ (post.flatMap fun ms => ms.2.map Prod.fst)).dedup := by
    rw [hk1, hk2, List.append_assoc, List.cons_append]
    exact dedup_block_head vs hvs _
  have htimes : timesOf (pre ++ (m, (vs.map fun v => (t, v)) ++ rest) :: post)
      = timesOf (pre ++ (m, (t, listMean vs) :: rest) :: post) := by
    unfold timesOf
    congr 1
    rw [hkeysShape, hkeysShape]
    exact dedup_append_congr _ hinner
  have hrow : ∀ t' : Int,
      rowVals (pre ++ (m, (vs.map fun v => (t, v)) ++ rest) :: post) t'
        = rowVals (pre ++ (m, (t, listMean vs) :: rest) :: post) t' := by
    intro t'
    unfold rowVals
    rw [List.filterMap_append, List.filterMap_append]
    congr 1
    simp only [List.filterMap_cons]
    rw [hcell t']
  unfold aggregate
  rw [htimes]
  exact List.map_congr_left fun t' _ => by rw [hrow t']

/-- Witness for C10: one model reporting twice at hour 0, one model
reporting once; the duplicates average to their midpoint. -/
theorem aggregate_averages_duplicate_timestamps_witness :
    (([1, 5] : List ℚ) ≠ []) ∧
    (∀ p ∈ ([] : Series), p.1 ≠ 0) ∧
    aggregate ([] ++ (2, (([1, 5] : List ℚ).map fun v => ((0 : Int), v))
        ++ []) :: [(3, [((0 : Int), (4 : ℚ))])])
      = aggregate ([] ++ (2, ((0 : Int), listMean [1, 5])
        :: []) :: [(3, [((0 : Int), (4 : ℚ))])]) :=
  ⟨by decide, by decide,
    aggregate_averages_duplicate_timestamps [] [(3, [(0, 4)])] 2 0 [1, 5] []
      (by decide) (by decide)⟩
